import Mathlib

/-!
Verification of the incremental-ETL core of the airflow-dags repository.

The Python sources are shallowly embedded:
  - src/etl_guava_clickhouse.py   (GuavaClickHouseETL): watermark resolver,
    WHERE-clause builder, adaptive batch loop;
  - src/etl_applemango_opensearch.py (AppleMangoOpenSearchETL): scroll
    extraction, watermark resolver, schema reconciler, row transformer;
  - src/etl_guava_mariadb.py      (GuavaMariaDBETL): row transformer.

Machine integers are Nat/Int (Python ints are unbounded, so no modular
arithmetic is needed); fallible calls are Except/Option; database handles
are records of query outcomes; the batch loop is a fuel-driven step
function.  The process timezone is taken to be UTC, so the naive
"datetime(...).timestamp()" call of the source is embedded as the plain
Unix epoch conversion.
-/

/-! ## Decimal digits (Python str formatting of integers) -/

def natToDigitsAux : Nat → Nat → List Char
  | 0, _ => []
  | fuel + 1, n =>
    if n < 10 then [Nat.digitChar n]
    else natToDigitsAux fuel (n / 10) ++ [Nat.digitChar (n % 10)]

def natToDigits (n : Nat) : List Char := natToDigitsAux (n + 1) n

def digitVal (c : Char) : Nat := c.toNat - '0'.toNat

def digitsToNat (l : List Char) : Nat :=
  l.foldl (fun a c => a * 10 + digitVal c) 0

def natStr (n : Nat) : String := String.mk (natToDigits n)

/-- Python f-string rendering of an int (possibly negative). -/
def intStr (i : Int) : String :=
  if i < 0 then "-" ++ natStr i.natAbs else natStr i.natAbs

/-! ## Character classes used by the source's string handling -/

/-- ASCII whitespace, the characters matched by the regex class for
whitespace and stripped by Python str.strip(). -/
def pyIsSpace (c : Char) : Bool :=
  c = ' ' || c = '\t' || c = '\n' || c = '\r' || c = '\x0b' || c = '\x0c'

/-- Python str.strip(): drop whitespace from both ends. -/
def pyStrip (l : List Char) : List Char :=
  ((l.dropWhile pyIsSpace).reverse.dropWhile pyIsSpace).reverse

/-! ## Python str.replace with a non-empty pattern and empty replacement
(used to delete timezone markers).  Scans left to right, removing
non-overlapping occurrences. -/

def replaceSubAux (pat : List Char) : Nat → List Char → List Char
  | 0, s => s
  | _ + 1, [] => []
  | fuel + 1, c :: rest =>
    if pat ≠ [] ∧ pat.isPrefixOf (c :: rest) then
      replaceSubAux pat fuel ((c :: rest).drop pat.length)
    else
      c :: replaceSubAux pat fuel rest

def replace_sub (pat : List Char) (s : List Char) : List Char :=
  replaceSubAux pat s.length s

/-- Does pat occur (as a contiguous run) anywhere in s? -/
def occurs_in (pat : List Char) : List Char → Bool
  | [] => pat.isPrefixOf []
  | c :: rest => pat.isPrefixOf (c :: rest) || occurs_in pat rest

/-- Drop one trailing occurrence of pat, when present. -/
def dropSuffixIf (pat : List Char) (l : List Char) : List Char :=
  if pat.isSuffixOf l then l.take (l.length - pat.length) else l

/-! ## The WHERE-clause builder of GuavaClickHouseETL
(src/etl_guava_clickhouse.py lines 82-134). -/

/-- Declared ordering-column type, from the timestamp_info table. -/
inductive TsType where
  | int64
  | dateTime64
deriving DecidableEq, Repr

/-- The resolved watermark value: the Python code receives either an int
(possibly via float) or a str. -/
inductive Watermark where
  | wInt (i : Int)
  | wStr (s : String)
deriving DecidableEq, Repr

/-- Python truthiness of the last_value argument ("if not last_value"):
None, 0 and the empty string are falsy. -/
def truthyWatermark : Option Watermark → Bool
  | none => false
  | some (.wInt i) => i ≠ 0
  | some (.wStr s) => s ≠ ""

/-- The fixed list of timezone markers deleted by the source, in source
order. -/
def tzPatterns : List (List Char) :=
  [['+', '0', '9', ':', '0', '0'], ['+', '0', '0', ':', '0', '0'], ['Z'],
   ['-', '0', '0', ':', '0', '0'], ['+', '0', '1', ':', '0', '0'],
   ['-', '0', '1', ':', '0', '0']]

/-- last_value.replace('T', ' ') then the six tz .replace deletions then
.strip(), exactly as in the source. -/
def strip_tz (s : String) : String :=
  let l := s.data.map (fun c => if c = 'T' then ' ' else c)
  let l := tzPatterns.foldl (fun acc pat => replace_sub pat acc) l
  String.mk (pyStrip l)

/-! ### A model of the regex
r'(\d{4})-(\d{2})-(\d{2})\s+(\d{2}):(\d{2}):(\d{2})\.?(\d{0,9})?'
applied with re.match (anchored at the start, trailing input ignored). -/

def takeExactDigits : Nat → List Char → Option (List Char × List Char)
  | 0, s => some ([], s)
  | _ + 1, [] => none
  | n + 1, c :: s =>
    if c.isDigit then (takeExactDigits n s).map (fun p => (c :: p.1, p.2))
    else none

def expectChar (c : Char) : List Char → Option (List Char)
  | [] => none
  | d :: s => if d = c then some s else none

/-- One-or-more whitespace, greedy (maximal munch; a digit must follow in
the pattern, so greediness agrees with the regex). -/
def takeWs1 : List Char → Option (List Char)
  | [] => none
  | c :: rest => if pyIsSpace c then some (rest.dropWhile pyIsSpace) else none

structure TsGroups where
  year : Nat
  month : Nat
  day : Nat
  hour : Nat
  minute : Nat
  second : Nat
  frac : List Char
deriving DecidableEq, Repr

/-- The optional dot before the fraction group. -/
def skipDot : List Char → List Char
  | '.' :: rest => rest
  | other => other

def ts_regex_match (s : List Char) : Option TsGroups :=
  match takeExactDigits 4 s with
  | none => none
  | some (y, s) =>
  match expectChar '-' s with
  | none => none
  | some s =>
  match takeExactDigits 2 s with
  | none => none
  | some (mo, s) =>
  match expectChar '-' s with
  | none => none
  | some s =>
  match takeExactDigits 2 s with
  | none => none
  | some (d, s) =>
  match takeWs1 s with
  | none => none
  | some s =>
  match takeExactDigits 2 s with
  | none => none
  | some (h, s) =>
  match expectChar ':' s with
  | none => none
  | some s =>
  match takeExactDigits 2 s with
  | none => none
  | some (mi, s) =>
  match expectChar ':' s with
  | none => none
  | some s =>
  match takeExactDigits 2 s with
  | none => none
  | some (se, s) =>
    some ⟨digitsToNat y, digitsToNat mo, digitsToNat d,
          digitsToNat h, digitsToNat mi, digitsToNat se,
          ((skipDot s).takeWhile Char.isDigit).take 9⟩

/-- (nanosec or '0').ljust(9, '0')[:9] followed by int(...): the captured
fraction digits are padded on the RIGHT with zeros to nine digits. -/
def fracNanos (frac : List Char) : Nat :=
  let base := if frac = [] then ['0'] else frac
  digitsToNat ((base ++ List.replicate (9 - base.length) '0').take 9)

/-- Independent statement of right-padding: append zeros to nine digits
and read the result as a decimal number. -/
def rightPadNanos (frac : List Char) : Nat :=
  digitsToNat (frac ++ List.replicate (9 - frac.length) '0')

/-- The literal-normalisation step as worded by the spec: replace the T
separator and strip the six timezone markers ONLY when they stand at the
end of the string (a suffix). -/
def specSuffixStrip (s : String) : String :=
  String.mk ((([['+', '0', '9', ':', '0', '0'], ['+', '0', '0', ':', '0', '0'],
    ['Z'], ['-', '0', '0', ':', '0', '0'], ['+', '0', '1', ':', '0', '0'],
    ['-', '0', '1', ':', '0', '0']] : List (List Char)).foldl
      (fun acc pat => dropSuffixIf pat acc)
      (s.data.map (fun c => if c = 'T' then ' ' else c))))

/-! ### Validity and epoch conversion performed by
datetime(year, month, day, hour, minute, second).timestamp()
(an invalid component raises ValueError, caught by the source). -/

def isLeapYear (y : Nat) : Bool := (y % 4 = 0 && y % 100 ≠ 0) || y % 400 = 0

def daysInMonth (y m : Nat) : Nat :=
  if m = 2 then (if isLeapYear y then 29 else 28)
  else if m = 4 || m = 6 || m = 9 || m = 11 then 30
  else 31

def datetime_ok (g : TsGroups) : Bool :=
  1 ≤ g.year && g.year ≤ 9999 && 1 ≤ g.month && g.month ≤ 12 &&
  1 ≤ g.day && g.day ≤ daysInMonth g.year g.month &&
  g.hour ≤ 23 && g.minute ≤ 59 && g.second ≤ 59

/-- Days in complete years before year y of the proleptic Gregorian
calendar (year 1 is the first year). -/
def daysBeforeYear (y : Nat) : Nat :=
  365 * (y - 1) + (y - 1) / 4 - (y - 1) / 100 + (y - 1) / 400

def daysBeforeMonth (y m : Nat) : Nat :=
  let tbl : List Nat := [0, 31, 59, 90, 120, 151, 181, 212, 243, 273, 304, 334]
  let base := tbl.getD (m - 1) 0
  if 3 ≤ m && isLeapYear y then base + 1 else base

/-- Proleptic-Gregorian ordinal of the date, with 0001-01-01 as day 1
(Python date.toordinal). -/
def toOrdinal (g : TsGroups) : Nat :=
  daysBeforeYear g.year + daysBeforeMonth g.year g.month + g.day

/-- datetime(...).timestamp() with the process timezone fixed to UTC;
date(1970, 1, 1).toordinal() = 719163. -/
def epoch_seconds (g : TsGroups) : Int :=
  ((toOrdinal g : Int) - 719163) * 86400 +
    3600 * (g.hour : Int) + 60 * (g.minute : Int) + (g.second : Int)

/-! ### The builder itself -/

namespace GuavaClickHouseETL

def whereInt (col : String) (v : Int) : String :=
  "WHERE `" ++ col ++ "` > " ++ intStr v

def whereStr (col : String) (lit : String) : String :=
  "WHERE `" ++ col ++ "` > '" ++ lit ++ "'"

/-- _build_where_clause (lines 82-134).  Returns the WHERE string, ""
standing for the empty predicate (and for every failure branch). -/
def build_where_clause (col : String) (ty : TsType)
    (lastValue : Option Watermark) : String :=
  if truthyWatermark lastValue = false then ""
  else
    match ty, lastValue with
    | .int64, some (.wInt i) => whereInt col i
    | .dateTime64, some (.wStr s) => whereStr col (strip_tz s)
    | .int64, some (.wStr s) =>
      match ts_regex_match (strip_tz s).data with
      | some g =>
        if datetime_ok g then
          whereInt col (epoch_seconds g * 1000000000 + (fracNanos g.frac : Int))
        else ""
      | none => ""
    | _, _ => ""

/-- run() lines 160-162: a truthy watermark together with an empty WHERE
clause makes the job skip the table. -/
def skips_table (whereClause : String) (lastValue : Option Watermark) : Bool :=
  whereClause = "" && truthyWatermark lastValue

end GuavaClickHouseETL

/-! ## Watermark resolvers

The destination handle is modelled by the outcomes of the three queries a
resolver may issue; .error stands for a raised exception of the driver. -/

structure TargetDB where
  existsQ : Except Unit Bool
  countQ : Except Unit Nat
  maxIntQ : Except Unit (Option Int)
  maxStrQ : Except Unit (Option String)

namespace GuavaClickHouseETL

/-- _get_last_timestamp (src/etl_guava_clickhouse.py lines 35-80).  The
whole body is wrapped in try/except returning None, so every .error
collapses to none; "if last_ts:" is Python truthiness. -/
def get_last_timestamp (ty : TsType) (db : TargetDB) : Option Watermark :=
  match db.existsQ with
  | .error _ => none
  | .ok tableExists =>
    if !tableExists then none
    else
      match db.countQ with
      | .error _ => none
      | .ok rowCount =>
        if rowCount = 0 then none
        else if ty = .int64 then
          match db.maxIntQ with
          | .error _ => none
          | .ok none => none
          | .ok (some i) => if i ≠ 0 then some (.wInt i) else none
        else
          match db.maxStrQ with
          | .error _ => none
          | .ok none => none
          | .ok (some s) => if s ≠ "" then some (.wStr s) else none

end GuavaClickHouseETL

namespace AppleMangoOpenSearchETL

/-- _get_last_timestamp (src/etl_applemango_opensearch.py lines 170-206).
parse stands for pd.to_datetime / to_pydatetime normalisation of the
stored value; a parse failure raises inside the try block and is caught
(none). -/
def get_last_timestamp (db : TargetDB) (parse : String → Option String) :
    Option String :=
  match db.existsQ with
  | .error _ => none
  | .ok tableExists =>
    if !tableExists then none
    else
      match db.countQ with
      | .error _ => none
      | .ok rowCount =>
        if rowCount = 0 then none
        else
          match db.maxStrQ with
          | .error _ => none
          | .ok none => none
          | .ok (some s) => if s = "" then none else parse s

/-- The body a search request carries: either match_all (full resync) or a
strict range filter on the ordering field. -/
inductive OSQuery where
  | matchAll
  | rangeGt (field : String) (bound : String)
deriving DecidableEq, Repr

/-- Query construction of _extract_from_index (lines 107-124); iso stands
for datetime.isoformat(). -/
def build_os_query (iso : String → String) (field : String)
    (lastTs : Option String) : OSQuery :=
  match lastTs with
  | none => .matchAll
  | some t => .rangeGt field (iso t)

end AppleMangoOpenSearchETL

/-! ## The adaptive batch loop of GuavaClickHouseETL._process_batches
(src/etl_guava_clickhouse.py lines 206-314)

Source queries are numbered in issue order and answered by an oracle;
.ok n is a dataframe of n rows (the model clamps n to the requested LIMIT,
which a LIMIT query can never exceed), the two error constructors
distinguish the MEMORY_LIMIT_EXCEEDED message from every other exception.
transform and _load_batch failures are likewise oracle-driven. -/

inductive QRes where
  | ok (rows : Nat)
  | memErr
  | otherErr
deriving DecidableEq, Repr

structure PBCfg where
  totalRows : Nat
  oracle : Nat → QRes
  tOk : Nat → Bool
  lOk : Nat → Bool

structure PBSt where
  offset : Nat
  batchNum : Nat
  totalProcessed : Nat
  consecFailures : Nat
  batchSize : Nat
  tCalls : Nat
  lCalls : Nat
  trace : List (Nat × Nat)
deriving DecidableEq, Repr

/-- The state at entry of _process_batches, with self.batch_size = bs. -/
def pbInit (bs : Nat) : PBSt :=
  ⟨0, 0, 0, 0, bs, 0, 0, []⟩

inductive IterOut where
  | next (s : PBSt)
  | stop (s : PBSt)
deriving DecidableEq, Repr

/-- The tail of a loop iteration once df_batch holds rows: the empty-batch
break, the transform try/except, the load try/except, and the bookkeeping
(total_processed, offset += current_batch_size). -/
def afterExtract (cfg : PBCfg) (s : PBSt) (current rows : Nat) : IterOut :=
  if rows = 0 then .stop s
  else
    let s1 : PBSt := { s with tCalls := s.tCalls + 1 }
    if cfg.tOk s.tCalls = false then .next { s1 with offset := s.offset + current }
    else
      let s2 : PBSt := { s1 with lCalls := s1.lCalls + 1 }
      if cfg.lOk s1.lCalls = false then .next { s2 with offset := s.offset + current }
      else .next { s2 with offset := s.offset + current,
                           totalProcessed := s.totalProcessed + rows }

/-- One iteration of the while loop, entered with offset < total_rows. -/
def pbIter (cfg : PBCfg) (s : PBSt) : IterOut :=
  let remaining := cfg.totalRows - s.offset
  let current := min s.batchSize remaining
  let s1 : PBSt := { s with batchNum := s.batchNum + 1,
                            trace := s.trace ++ [(s.offset, current)] }
  match cfg.oracle s.trace.length with
  | .ok n =>
    -- extraction succeeded; consecutive_failures = 0
    afterExtract cfg { s1 with consecFailures := 0 } current (min n current)
  | .memErr =>
    let cf1 := s.consecFailures + 1
    if current > 100 then
      let smaller := current / 2
      let s2 : PBSt := { s1 with trace := s1.trace ++ [(s.offset, smaller)] }
      match cfg.oracle s1.trace.length with
      | .ok n =>
        -- halved query succeeded: batch size persisted, counter reset;
        -- control then falls through to the generic retry, which issues
        -- the (halved) query once more and uses that second result
        let s3 : PBSt := { s2 with batchSize := smaller, consecFailures := 0,
                                   trace := s2.trace ++ [(s.offset, smaller)] }
        match cfg.oracle s2.trace.length with
        | .ok m => afterExtract cfg { s3 with consecFailures := 0 } smaller (min m smaller)
        | _ => .next { s3 with offset := s.offset + smaller }
      | _ =>
        -- halved query failed too: skip forward by the smaller size
        .next { s2 with offset := s.offset + smaller, consecFailures := cf1 }
    else
      -- batch size already at the floor: skip forward
      .next { s1 with offset := s.offset + current, consecFailures := cf1 }
  | .otherErr =>
    if s.consecFailures + 1 ≥ 3 then
      -- three consecutive failures: return total_processed
      .stop { s1 with consecFailures := s.consecFailures + 1 }
    else
      -- gc.collect() then one retry of the same query
      let s2 : PBSt := { s1 with consecFailures := s.consecFailures + 1,
                                 trace := s1.trace ++ [(s.offset, current)] }
      match cfg.oracle s1.trace.length with
      | .ok n => afterExtract cfg { s2 with consecFailures := 0 } current (min n current)
      | _ => .next { s2 with offset := s.offset + current }

/-- The while loop, fuel-driven; none means the fuel ran out before the
loop finished. -/
def pbRun (cfg : PBCfg) : Nat → PBSt → Option PBSt
  | 0, _ => none
  | fuel + 1, s =>
    if s.offset < cfg.totalRows then
      match pbIter cfg s with
      | .next s' => pbRun cfg fuel s'
      | .stop s' => some s'
    else some s

/-- run() lines 172-174: the source row count is clamped to max_rows
before _process_batches is invoked. -/
def runTotalRows (count maxRows : Nat) : Nat := min count maxRows

/-- The loop invariant carrying the per-run row cap: rows handed on never
exceed the offset, which never exceeds the clamped total. -/
def pbInv (cfg : PBCfg) (s : PBSt) : Prop :=
  s.totalProcessed ≤ s.offset ∧ s.offset ≤ cfg.totalRows

def outInv (cfg : PBCfg) : IterOut → Prop
  | .next s => pbInv cfg s
  | .stop s => pbInv cfg s

/-! ## The scroll loop of AppleMangoOpenSearchETL._extract_from_index
(src/etl_applemango_opensearch.py lines 128-160)

Documents are identified by Nat ids; pageFn k is the k-th server page
(k = 0 the initial search, k >= 1 the scroll continuations), clamped by
the model to the requested size of 1000, which a page can never exceed. -/

namespace AppleMangoOpenSearchETL

def scrollLoop (maxRows : Nat) (pageFn : Nat → List Nat) :
    Nat → List Nat → List Nat → Nat → Option (List Nat)
  | 0, _, _, _ => none
  | fuel + 1, results, hits, idx =>
    if hits.length > 0 ∧ results.length < maxRows then
      let newHits := (pageFn idx).take 1000
      let remaining := maxRows - results.length
      let newHits2 := if newHits.length > remaining then newHits.take remaining
                      else newHits
      let results2 := results ++ newHits2
      if results2.length ≥ maxRows then some results2
      else scrollLoop maxRows pageFn fuel results2 newHits2 (idx + 1)
    else some results

/-- The whole extraction: the first page (size 1000) is appended to
results WITHOUT trimming, then the while loop runs. -/
def extract_from_index (maxRows : Nat) (pageFn : Nat → List Nat)
    (fuel : Nat) : Option (List Nat) :=
  let first := (pageFn 0).take 1000
  scrollLoop maxRows pageFn fuel first first 1

end AppleMangoOpenSearchETL

/-! ## The schema reconciler AppleMangoOpenSearchETL._add_missing_columns
(src/etl_applemango_opensearch.py lines 289-335)

describe is the outcome of DESCRIBE TABLE (its failure propagates to the
caller through the outer except/raise); addRes c is the outcome of the
ALTER TABLE ADD COLUMN statement for column c.  Python iterates the set
difference new_columns - existing_columns; the model determinises the set
iteration to first-occurrence order of the dataframe columns. -/

inductive AddRes where
  | ok
  | alreadyExists
  | otherErr
deriving DecidableEq, Repr

def isOtherErr : AddRes → Bool
  | .otherErr => true
  | _ => false

structure ReconcileOut where
  schema : List String
  ddl : List String
  failed : List String
deriving DecidableEq, Repr

/-- missing_columns = set(df.columns) - set(existing_columns). -/
def missingOf (existing cols : List String) : List String :=
  cols.eraseDups.filter (fun c => !existing.contains c)

/-- The per-column for loop: every missing column gets one ALTER;
"already exists" is passed over (the column is on the destination, added
by a concurrent writer); any other failure is logged and the loop
continues. -/
def addColumnsLoop (addRes : String → AddRes) (missing : List String)
    (schema : List String) : ReconcileOut :=
  missing.foldl
    (fun acc c =>
      match addRes c with
      | .ok => ⟨acc.schema ++ [c], acc.ddl ++ [c], acc.failed⟩
      | .alreadyExists => ⟨acc.schema ++ [c], acc.ddl ++ [c], acc.failed⟩
      | .otherErr => ⟨acc.schema, acc.ddl ++ [c], acc.failed ++ [c]⟩)
    ⟨schema, [], []⟩

def add_missing_columns (describe : Except Unit (List String))
    (addRes : String → AddRes) (dfCols : List String) :
    Except Unit ReconcileOut :=
  match describe with
  | .error e => .error e
  | .ok existing => .ok (addColumnsLoop addRes (missingOf existing dfCols) existing)

/-! ## Dataframes and the two row transformers

A batch is a list of (column name, dtype) descriptors plus row-major
values.  Floats are opaque payloads (the transforms only ever introduce
the literal 0.0); vDt is a naive timestamp broken into components so that
strftime can be rendered faithfully. -/

inductive Dty where
  | dtDatetime
  | dtInt
  | dtFloat
  | dtBool
  | dtObject
deriving DecidableEq, Repr

inductive Val where
  | vStr (s : String)
  | vInt (n : Int)
  | vFloat (code : Int)
  | vBool (b : Bool)
  | vNull
  | vDt (y mo d h mi s : Nat)
deriving DecidableEq, Repr

structure DF where
  cols : List (String × Dty)
  rows : List (List Val)
deriving DecidableEq, Repr

/-! ### AppleMangoOpenSearchETL.transform (lines 208-259) -/

/-- col.replace('.', '_').replace('-', '_').replace('@', 'at_'): the three
single-character replacements compose to one character-wise expansion
(no replacement output contains a later pattern). -/
def sanitizeChar (c : Char) : List Char :=
  if c = '.' then ['_']
  else if c = '-' then ['_']
  else if c = '@' then ['a', 't', '_']
  else [c]

def sanitizeName (s : String) : String :=
  String.mk (s.data.flatMap sanitizeChar)

/-- Characters rewritten by the rename step. -/
def isBadChar (c : Char) : Bool := c = '.' || c = '-' || c = '@'

/-- An identifier-safe column name: free of the rewritten characters. -/
def cleanName (s : String) : Bool := !s.data.any isBadChar

def renameBase (c : String) : String :=
  if c = "@timestamp" then "opensearch_timestamp"
  else if c = "@metadata" then "opensearch_metadata"
  else if c = "@version" then "opensearch_version"
  else sanitizeName c

/-- The while loop searching for the first free numeric suffix, starting
at 1.  At most used.length + 1 candidates are needed, so the search is a
bounded find. -/
def freshSuffix (used : List String) (base : String) : String :=
  ((((List.range (used.length + 1)).map
      (fun k => base ++ "_" ++ natStr (k + 1))).find?
    (fun cand => !used.contains cand)).getD base)

def renameOne (used : List String) (c : String) : String :=
  if used.contains (renameBase c) then freshSuffix used (renameBase c)
  else renameBase c

/-- The rename loop in column order; used accumulates new_columns.values().
(Dataframe column names are assumed pairwise distinct, as the dict of the
source requires.) -/
def renameList (used : List String) : List String → List String
  | [] => []
  | c :: cs =>
    let n := renameOne used c
    n :: renameList (used ++ [n]) cs

/-- dtype == bool: astype(str).replace picking 'true'/'false'.  A bool
dtype column holds only vBool cells; other cells pass through. -/
def boolToStrCell (v : Val) : Val :=
  match v with
  | .vBool b => .vStr (if b then "true" else "false")
  | v => v

def fillIntCell (v : Val) : Val :=
  match v with
  | .vNull => .vInt 0
  | v => v

def fillFloatCell (v : Val) : Val :=
  match v with
  | .vNull => .vFloat 0
  | v => v

/-- safe_convert of the object branch: NaN stays None, genuine bools
become 'true'/'false', everything else is unchanged. -/
def safeConvertCell (v : Val) : Val :=
  match v with
  | .vNull => .vNull
  | .vBool b => .vStr (if b then "true" else "false")
  | v => v

def amCellTransform (d : Dty) (v : Val) : Val :=
  match d with
  | .dtDatetime => v
  | .dtBool => boolToStrCell v
  | .dtInt => fillIntCell v
  | .dtFloat => fillFloatCell v
  | .dtObject => safeConvertCell v

/-- astype(str) turns a bool column into an object column; the other
branches keep the dtype. -/
def amDtyAfter (d : Dty) : Dty :=
  match d with
  | .dtBool => .dtObject
  | d => d

namespace AppleMangoOpenSearchETL

def transform (df : DF) : DF :=
  if df.rows = [] then df
  else
    { cols := (renameList [] (df.cols.map Prod.fst)).zip
        (df.cols.map (fun p => amDtyAfter p.2)),
      rows := df.rows.map
        (fun r => List.zipWith amCellTransform (df.cols.map Prod.snd) r) }

end AppleMangoOpenSearchETL

/-! ### GuavaMariaDBETL.transform (src/etl_guava_mariadb.py lines 46-80) -/

def fmtDt2 (n : Nat) : String :=
  if n < 10 then "0" ++ natStr n else natStr n

def fmtDt4 (n : Nat) : String :=
  if n < 10 then "000" ++ natStr n
  else if n < 100 then "00" ++ natStr n
  else if n < 1000 then "0" ++ natStr n
  else natStr n

/-- x.strftime('%Y-%m-%d %H:%M:%S') if pd.notna(x) else None. -/
def strftimeCell (v : Val) : Val :=
  match v with
  | .vDt y mo d h mi s =>
    .vStr (fmtDt4 y ++ "-" ++ fmtDt2 mo ++ "-" ++ fmtDt2 d ++ " " ++
           fmtDt2 h ++ ":" ++ fmtDt2 mi ++ ":" ++ fmtDt2 s)
  | .vNull => .vNull
  | v => v

def fillObjCell (v : Val) : Val :=
  match v with
  | .vNull => .vStr ""
  | v => v

/-- The per-dtype NULL handling of the mariadb transform: object columns
fillna(''), int and float columns fillna(0) (coerced to the column
dtype), datetime columns render to strings, bool columns match no branch. -/
def mdbCellTransform (d : Dty) (v : Val) : Val :=
  match d with
  | .dtObject => fillObjCell v
  | .dtInt => fillIntCell v
  | .dtFloat => fillFloatCell v
  | .dtDatetime => strftimeCell v
  | .dtBool => v

/-- The strftime apply leaves an object column behind. -/
def mdbDtyAfter (d : Dty) : Dty :=
  match d with
  | .dtDatetime => .dtObject
  | d => d

def lowerName (s : String) : String :=
  String.mk (s.data.map Char.toLower)

/-- pandas assignment data[name] = scalar: overwrite the column in place
when it exists, append it otherwise; a string scalar gives dtype object. -/
def setConstCol (df : DF) (name : String) (v : Val) : DF :=
  if (df.cols.map Prod.fst).contains name then
    { cols := df.cols.map (fun p => if p.1 = name then (name, Dty.dtObject) else p),
      rows := df.rows.map
        (fun r => List.zipWith (fun p cell => if p.1 = name then v else cell) df.cols r) }
  else
    { cols := df.cols ++ [(name, Dty.dtObject)],
      rows := df.rows.map (fun r => r ++ [v]) }

namespace GuavaMariaDBETL

def transform (tableName : String) (df : DF) : DF :=
  if df.rows = [] then df
  else
    -- header-row removal: drop rows whose first cell equals the first
    -- column's (pre-lowercasing) name; pandas != is elementwise, and both
    -- NaN and non-string cells compare unequal (kept)
    let firstCol := ((df.cols.head?).map Prod.fst).getD ""
    let rows1 := df.rows.filter (fun r => r.head? ≠ some (Val.vStr firstCol))
    if rows1 = [] then { df with rows := [] }
    else
      let cols2 := df.cols.map (fun p => (lowerName p.1, mdbDtyAfter p.2))
      let rows2 := rows1.map
        (fun r => List.zipWith mdbCellTransform (df.cols.map Prod.snd) r)
      let df3 := setConstCol ⟨cols2, rows2⟩ "source_system" (.vStr "guava")
      setConstCol df3 "source_table" (.vStr tableName)

end GuavaMariaDBETL

/-! # Lemmas and claim theorems -/

set_option maxRecDepth 40000

theorem digitsToNat_append (l : List Char) (c : Char) :
    digitsToNat (l ++ [c]) = digitsToNat l * 10 + digitVal c := by
  simp [digitsToNat, List.foldl_append]

theorem digitVal_digitChar (n : Nat) (h : n < 10) :
    digitVal (Nat.digitChar n) = n := by
  interval_cases n <;> rfl

theorem digitsToNat_natToDigitsAux (fuel : Nat) :
    ∀ n, n < fuel → digitsToNat (natToDigitsAux fuel n) = n := by
  induction fuel with
  | zero => intro n h; omega
  | succ f ih =>
    intro n h
    rw [natToDigitsAux]
    split
    · next h10 =>
      simp [digitsToNat, digitVal_digitChar n h10]
    · next h10 =>
      rw [digitsToNat_append, ih (n / 10) (by omega),
          digitVal_digitChar _ (Nat.mod_lt _ (by norm_num))]
      omega

theorem digitsToNat_natToDigits (n : Nat) :
    digitsToNat (natToDigits n) = n :=
  digitsToNat_natToDigitsAux (n + 1) n (Nat.lt_succ_self n)

theorem natStr_inj {a b : Nat} (h : natStr a = natStr b) : a = b := by
  have hd : natToDigits a = natToDigits b := congrArg String.data h
  calc a = digitsToNat (natToDigits a) := (digitsToNat_natToDigits a).symm
    _ = digitsToNat (natToDigits b) := by rw [hd]
    _ = b := digitsToNat_natToDigits b

theorem isDigit_natToDigitsAux (fuel : Nat) :
    ∀ n c, c ∈ natToDigitsAux fuel n → c.isDigit = true := by
  induction fuel with
  | zero => intro n c h; simp [natToDigitsAux] at h
  | succ f ih =>
    intro n c h
    rw [natToDigitsAux] at h
    split at h
    · next h10 =>
      simp only [List.mem_singleton] at h
      subst h
      interval_cases n <;> decide
    · next h10 =>
      rcases List.mem_append.mp h with h1 | h1
      · exact ih _ _ h1
      · simp only [List.mem_singleton] at h1
        subst h1
        have : n % 10 < 10 := Nat.mod_lt _ (by norm_num)
        interval_cases h : (n % 10) <;> decide

theorem isBadChar_of_isDigit (c : Char) (h : c.isDigit = true) :
    isBadChar c = false := by
  simp only [isBadChar, Bool.or_eq_false_iff, decide_eq_false_iff_not]
  refine ⟨⟨?_, ?_⟩, ?_⟩ <;> rintro rfl <;> simp [Char.isDigit] at h

theorem cleanName_natStr (n : Nat) : cleanName (natStr n) = true := by
  simp only [cleanName, natStr, Bool.not_eq_true', List.any_eq_false]
  intro c hc
  simp [isBadChar_of_isDigit c (isDigit_natToDigitsAux (n + 1) n c hc)]

/-! ## Lemmas on the literal-normalisation step -/

theorem replaceSubAux_of_not_occurs (pat : List Char) :
    ∀ fuel l, occurs_in pat l = false → replaceSubAux pat fuel l = l := by
  intro fuel
  induction fuel with
  | zero => intro l _; rfl
  | succ f ih =>
    intro l h
    cases l with
    | nil => rfl
    | cons c rest =>
      simp only [occurs_in, Bool.or_eq_false_iff] at h
      rw [replaceSubAux, if_neg, ih rest h.2]
      rintro ⟨-, hp⟩
      rw [h.1] at hp
      exact absurd hp (by simp)

theorem replace_sub_of_not_occurs (pat l : List Char)
    (h : occurs_in pat l = false) : replace_sub pat l = l :=
  replaceSubAux_of_not_occurs pat l.length l h

theorem foldl_replace_fixed :
    ∀ (pats : List (List Char)) (l : List Char),
    (∀ p ∈ pats, occurs_in p l = false) →
    pats.foldl (fun acc pat => replace_sub pat acc) l = l := by
  intro pats
  induction pats with
  | nil => intro l _; rfl
  | cons p ps ih =>
    intro l h
    simp only [List.foldl_cons]
    rw [replace_sub_of_not_occurs p l (h p (by simp))]
    exact ih l (fun q hq => h q (by simp [hq]))

theorem map_noT (l : List Char) (h : 'T' ∉ l) :
    l.map (fun c => if c = 'T' then ' ' else c) = l := by
  induction l with
  | nil => rfl
  | cons c rest ih =>
    simp only [List.mem_cons, not_or] at h
    have hc : ¬ c = 'T' := fun hcc => h.1 hcc.symm
    simp only [List.map_cons, if_neg hc, ih h.2]

theorem strip_tz_of_canonical (s : String) (hT : 'T' ∉ s.data)
    (hocc : ∀ pat ∈ tzPatterns, occurs_in pat s.data = false)
    (hstrip : pyStrip s.data = s.data) : strip_tz s = s := by
  have hdef : strip_tz s = String.mk (pyStrip (tzPatterns.foldl
      (fun acc pat => replace_sub pat acc)
      (s.data.map (fun c => if c = 'T' then ' ' else c)))) := rfl
  rw [hdef, map_noT s.data hT, foldl_replace_fixed tzPatterns s.data hocc,
     hstrip]

/-- Claim C8, counterexample. The code does not strip the timezone
markers only as suffixes: str.replace deletes every occurrence, so a
leading Z is removed as well, and the produced literal differs from the
suffix-stripped value demanded by the claim. -/
theorem C8_counterexample :
    GuavaClickHouseETL.build_where_clause "Timestamp" .dateTime64
        (some (.wStr "Z2024-01-01 00:00:00")) =
      GuavaClickHouseETL.whereStr "Timestamp" "2024-01-01 00:00:00" ∧
    specSuffixStrip "Z2024-01-01 00:00:00" = "Z2024-01-01 00:00:00" ∧
    ¬ ("2024-01-01 00:00:00" = "Z2024-01-01 00:00:00") := by
  refine ⟨by decide, by decide, by decide⟩

/-- Claim C8, amended. The builder removes ALL occurrences of the six
timezone markers and of T (not only suffix occurrences); for an integer
watermark the literal is the decimal rendering of that integer (re-read
as a number it is unchanged), and for a canonical timestamp string (no T,
no marker occurrence, no surrounding whitespace - the form emitted by the
watermark resolver) the embedded literal equals the watermark itself. -/
theorem C8_amended (col : String) (i : Int) (s : String)
    (hi : i ≠ 0) (hs : s ≠ "")
    (hT : 'T' ∉ s.data)
    (hocc : ∀ pat ∈ tzPatterns, occurs_in pat s.data = false)
    (hstrip : pyStrip s.data = s.data) :
    GuavaClickHouseETL.build_where_clause col .int64 (some (.wInt i)) =
      GuavaClickHouseETL.whereInt col i ∧
    GuavaClickHouseETL.build_where_clause col .dateTime64 (some (.wStr s)) =
      GuavaClickHouseETL.whereStr col s ∧
    digitsToNat (natToDigits i.natAbs) = i.natAbs := by
  refine ⟨?_, ?_, digitsToNat_natToDigits i.natAbs⟩
  · simp [GuavaClickHouseETL.build_where_clause, truthyWatermark, hi]
  · simp [GuavaClickHouseETL.build_where_clause, truthyWatermark, hs,
          strip_tz_of_canonical s hT hocc hstrip]

/-- Witness for C8_amended at the integer watermark 123 and the canonical
string watermark 2024-01-01 00:00:00.123. -/
theorem C8_witness :
    GuavaClickHouseETL.build_where_clause "Timestamp" .int64
        (some (.wInt 123)) = GuavaClickHouseETL.whereInt "Timestamp" 123 ∧
    GuavaClickHouseETL.build_where_clause "Timestamp" .dateTime64
        (some (.wStr "2024-01-01 00:00:00.123")) =
      GuavaClickHouseETL.whereStr "Timestamp" "2024-01-01 00:00:00.123" ∧
    digitsToNat (natToDigits (Int.natAbs 123)) = Int.natAbs 123 :=
  C8_amended "Timestamp" 123 "2024-01-01 00:00:00.123"
    (by decide) (by decide) (by decide) (by decide) (by decide)

/-! ## Lemmas on the integer-epoch cross case -/

theorem ts_regex_frac_le (s : List Char) (g : TsGroups)
    (h : ts_regex_match s = some g) : g.frac.length ≤ 9 := by
  unfold ts_regex_match at h
  repeat' split at h
  any_goals cases h
  simp [List.length_take]

theorem fracNanos_eq_rightPad (frac : List Char) (h : frac.length ≤ 9) :
    fracNanos frac = rightPadNanos frac := by
  by_cases hf : frac = []
  · subst hf; decide
  · simp only [fracNanos, rightPadNanos, if_neg hf]
    rw [List.take_of_length_le]
    simp only [List.length_append, List.length_replicate]
    omega

/-- Claim C4, counterexample. A fraction of a single digit 5 contributes
500000000 nanoseconds (the digits are padded on the right by ljust), not
the 5 nanoseconds that left-padding to nine digits would give. -/
theorem C4_counterexample :
    GuavaClickHouseETL.build_where_clause "TimeUnix" .int64
        (some (.wStr "2024-01-01 00:00:00.5")) =
      GuavaClickHouseETL.whereInt "TimeUnix" 1704067200500000000 ∧
    fracNanos ['5'] = 500000000 ∧
    digitsToNat (List.replicate 8 '0' ++ ['5']) = 5 ∧
    ¬ ((500000000 : Nat) = 5) := by
  refine ⟨by decide, by decide, by decide, by decide⟩

/-- Claim C4, amended. On the integer-epoch path with a string watermark,
a string matched by the pattern is converted to
seconds * 1000000000 + nanos where the fractional digits are RIGHT-padded
with zeros to exactly nine digits (truncating beyond nine), and a string
the pattern does not match yields no predicate, upon which the caller
skips the object. -/
theorem C4_amended (col : String) (s₁ s₂ : String) (g : TsGroups)
    (h1 : ts_regex_match (strip_tz s₁).data = some g)
    (h2 : datetime_ok g = true)
    (h3 : truthyWatermark (some (.wStr s₂)) = true)
    (h4 : ts_regex_match (strip_tz s₂).data = none) :
    GuavaClickHouseETL.build_where_clause col .int64 (some (.wStr s₁)) =
      GuavaClickHouseETL.whereInt col
        (epoch_seconds g * 1000000000 + (rightPadNanos g.frac : Int)) ∧
    GuavaClickHouseETL.build_where_clause col .int64 (some (.wStr s₂)) = "" ∧
    GuavaClickHouseETL.skips_table
      (GuavaClickHouseETL.build_where_clause col .int64 (some (.wStr s₂)))
      (some (.wStr s₂)) = true := by
  have hfrac : fracNanos g.frac = rightPadNanos g.frac :=
    fracNanos_eq_rightPad g.frac (ts_regex_frac_le _ g h1)
  have hs₁ : s₁ ≠ "" := by
    rintro rfl
    rw [show ts_regex_match (strip_tz "").data = none from by decide] at h1
    cases h1
  refine ⟨?_, ?_, ?_⟩
  · simp [GuavaClickHouseETL.build_where_clause, truthyWatermark, hs₁, h1,
          h2, hfrac]
  · simp [GuavaClickHouseETL.build_where_clause, h3, h4]
  · simp [GuavaClickHouseETL.skips_table, GuavaClickHouseETL.build_where_clause,
          h3, h4]

/-- Witness for C4_amended: the watermark string 2024-01-01 00:00:00.5
parses (with groups computed by the embedded regex) while the string oops
does not. -/
theorem C4_witness :
    GuavaClickHouseETL.build_where_clause "TimeUnix" .int64
        (some (.wStr "2024-01-01 00:00:00.5")) =
      GuavaClickHouseETL.whereInt "TimeUnix"
        (epoch_seconds ⟨2024, 1, 1, 0, 0, 0, ['5']⟩ * 1000000000 +
          (rightPadNanos (TsGroups.frac ⟨2024, 1, 1, 0, 0, 0, ['5']⟩) : Int)) ∧
    GuavaClickHouseETL.build_where_clause "TimeUnix" .int64
        (some (.wStr "oops")) = "" ∧
    GuavaClickHouseETL.skips_table
      (GuavaClickHouseETL.build_where_clause "TimeUnix" .int64
        (some (.wStr "oops")))
      (some (.wStr "oops")) = true :=
  C4_amended "TimeUnix" "2024-01-01 00:00:00.5" "oops" ⟨2024, 1, 1, 0, 0, 0, ['5']⟩
    (by decide) (by decide) (by decide) (by decide)

/-- Claim C10 (implicit truthiness behaviour, confirmed). The builder
tests the watermark with Python truthiness, so the legitimate
integer-epoch watermark 0 and the empty string both produce the empty
predicate (full resync) instead of a strict comparison; the resolver
itself already converts a stored maximum of 0 to the absent sentinel. -/
theorem C10_truthiness (col : String) (ty : TsType) (db : TargetDB) (c : Nat)
    (h1 : db.existsQ = .ok true) (h2 : db.countQ = .ok c) (hc : c ≠ 0)
    (h3 : db.maxIntQ = .ok (some 0)) :
    GuavaClickHouseETL.get_last_timestamp .int64 db = none ∧
    GuavaClickHouseETL.build_where_clause col ty (some (.wInt 0)) = "" ∧
    GuavaClickHouseETL.build_where_clause col ty (some (.wStr "")) = "" ∧
    truthyWatermark (some (.wInt 0)) = false ∧
    truthyWatermark (some (.wStr "")) = false := by
  refine ⟨?_, ?_, ?_, by decide, by decide⟩
  · simp [GuavaClickHouseETL.get_last_timestamp, h1, h2, hc, h3]
  · simp [GuavaClickHouseETL.build_where_clause, truthyWatermark]
  · simp [GuavaClickHouseETL.build_where_clause, truthyWatermark]

/-- Witness for C10_truthiness at a destination with five rows whose
stored maximum TimeUnix is 0. -/
theorem C10_witness :
    GuavaClickHouseETL.get_last_timestamp .int64
      ⟨.ok true, .ok 5, .ok (some 0), .ok none⟩ = none ∧
    GuavaClickHouseETL.build_where_clause "TimeUnix" .int64
      (some (.wInt 0)) = "" ∧
    GuavaClickHouseETL.build_where_clause "TimeUnix" .int64
      (some (.wStr "")) = "" ∧
    truthyWatermark (some (.wInt 0)) = false ∧
    truthyWatermark (some (.wStr "")) = false :=
  C10_truthiness "TimeUnix" .int64 ⟨.ok true, .ok 5, .ok (some 0), .ok none⟩ 5
    rfl rfl (by decide) rfl

/-- Claim C5 (confirmed). A destination table that does not exist, or
holds zero rows, resolves to the absent watermark; every query failure
(existence probe, row count, or maximum lookup, on either engine path) is
caught and also resolves to absent; the filter builders turn an absent
watermark into the empty predicate (ClickHouse path) or the match_all
query (OpenSearch path). -/
theorem C5_resolver_absent (ty : TsType) (col field : String)
    (iso : String → String) (parse : String → Option String)
    (db1 db2 db3 db4 db5 : TargetDB) (c : Nat)
    (h1 : db1.existsQ = .ok false)
    (h2a : db2.existsQ = .ok true) (h2b : db2.countQ = .ok 0)
    (h3 : db3.existsQ = .error ())
    (h4a : db4.existsQ = .ok true) (h4b : db4.countQ = .error ())
    (h5a : db5.existsQ = .ok true) (h5b : db5.countQ = .ok c) (hc : c ≠ 0)
    (h5c : db5.maxIntQ = .error ()) (h5d : db5.maxStrQ = .error ()) :
    GuavaClickHouseETL.get_last_timestamp ty db1 = none ∧
    GuavaClickHouseETL.get_last_timestamp ty db2 = none ∧
    GuavaClickHouseETL.get_last_timestamp ty db3 = none ∧
    GuavaClickHouseETL.get_last_timestamp ty db4 = none ∧
    GuavaClickHouseETL.get_last_timestamp ty db5 = none ∧
    AppleMangoOpenSearchETL.get_last_timestamp db1 parse = none ∧
    AppleMangoOpenSearchETL.get_last_timestamp db2 parse = none ∧
    AppleMangoOpenSearchETL.get_last_timestamp db3 parse = none ∧
    AppleMangoOpenSearchETL.get_last_timestamp db4 parse = none ∧
    GuavaClickHouseETL.build_where_clause col ty none = "" ∧
    AppleMangoOpenSearchETL.build_os_query iso field none = .matchAll := by
  refine ⟨?_, ?_, ?_, ?_, ?_, ?_, ?_, ?_, ?_, by rfl, by rfl⟩
  · simp [GuavaClickHouseETL.get_last_timestamp, h1]
  · simp [GuavaClickHouseETL.get_last_timestamp, h2a, h2b]
  · simp [GuavaClickHouseETL.get_last_timestamp, h3]
  · simp [GuavaClickHouseETL.get_last_timestamp, h4a, h4b]
  · by_cases hty : ty = .int64 <;>
      simp [GuavaClickHouseETL.get_last_timestamp, h5a, h5b, hc, h5c, h5d, hty]
  · simp [AppleMangoOpenSearchETL.get_last_timestamp, h1]
  · simp [AppleMangoOpenSearchETL.get_last_timestamp, h2a, h2b]
  · simp [AppleMangoOpenSearchETL.get_last_timestamp, h3]
  · simp [AppleMangoOpenSearchETL.get_last_timestamp, h4a, h4b]

/-- Witness for C5_resolver_absent on five concrete destination handles:
missing table, empty table, and failures of each of the three lookup
queries. -/
theorem C5_witness :
    GuavaClickHouseETL.get_last_timestamp .int64
      ⟨.ok false, .ok 0, .ok none, .ok none⟩ = none ∧
    GuavaClickHouseETL.get_last_timestamp .int64
      ⟨.ok true, .ok 0, .ok none, .ok none⟩ = none ∧
    GuavaClickHouseETL.get_last_timestamp .int64
      ⟨.error (), .ok 0, .ok none, .ok none⟩ = none ∧
    GuavaClickHouseETL.get_last_timestamp .int64
      ⟨.ok true, .error (), .ok none, .ok none⟩ = none ∧
    GuavaClickHouseETL.get_last_timestamp .int64
      ⟨.ok true, .ok 3, .error (), .error ()⟩ = none ∧
    AppleMangoOpenSearchETL.get_last_timestamp
      ⟨.ok false, .ok 0, .ok none, .ok none⟩ some = none ∧
    AppleMangoOpenSearchETL.get_last_timestamp
      ⟨.ok true, .ok 0, .ok none, .ok none⟩ some = none ∧
    AppleMangoOpenSearchETL.get_last_timestamp
      ⟨.error (), .ok 0, .ok none, .ok none⟩ some = none ∧
    AppleMangoOpenSearchETL.get_last_timestamp
      ⟨.ok true, .error (), .ok none, .ok none⟩ some = none ∧
    GuavaClickHouseETL.build_where_clause "TimeUnix" .int64 none = "" ∧
    AppleMangoOpenSearchETL.build_os_query id "@timestamp" none = .matchAll :=
  C5_resolver_absent .int64 "TimeUnix" "@timestamp" id some
    ⟨.ok false, .ok 0, .ok none, .ok none⟩
    ⟨.ok true, .ok 0, .ok none, .ok none⟩
    ⟨.error (), .ok 0, .ok none, .ok none⟩
    ⟨.ok true, .error (), .ok none, .ok none⟩
    ⟨.ok true, .ok 3, .error (), .error ()⟩ 3
    rfl rfl rfl rfl rfl rfl rfl rfl (by decide) rfl rfl

/-! ## Lemmas on the schema reconciler -/

theorem addColumnsLoop_spec (addRes : String → AddRes) :
    ∀ (missing S : List String),
    addColumnsLoop addRes missing S =
      ⟨S ++ missing.filter (fun c => !isOtherErr (addRes c)),
       missing,
       missing.filter (fun c => isOtherErr (addRes c))⟩ := by
  have gen : ∀ (missing a b c : List String),
      (missing.foldl
        (fun acc c' =>
          match addRes c' with
          | .ok => ⟨acc.schema ++ [c'], acc.ddl ++ [c'], acc.failed⟩
          | .alreadyExists => ⟨acc.schema ++ [c'], acc.ddl ++ [c'], acc.failed⟩
          | .otherErr => ⟨acc.schema, acc.ddl ++ [c'], acc.failed ++ [c']⟩)
        ⟨a, b, c⟩ : ReconcileOut) =
      ⟨a ++ missing.filter (fun c' => !isOtherErr (addRes c')),
       b ++ missing,
       c ++ missing.filter (fun c' => isOtherErr (addRes c'))⟩ := by
    intro missing
    induction missing with
    | nil => intro a b c; simp
    | cons x xs ih =>
      intro a b c
      simp only [List.foldl_cons]
      cases hx : addRes x <;>
        simp [hx, isOtherErr, ih, List.filter_cons]
  intro missing S
  exact (gen missing S [] []).trans (by simp)

theorem missingOf_after (S cols : List String) (addRes : String → AddRes) :
    missingOf (addColumnsLoop addRes (missingOf S cols) S).schema cols =
      (addColumnsLoop addRes (missingOf S cols) S).failed := by
  rw [addColumnsLoop_spec]
  simp only [missingOf, List.filter_filter]
  apply List.filter_congr
  intro c hc
  by_cases hS : c ∈ S
  · simp [hS, List.mem_append]
  · by_cases hE : isOtherErr (addRes c)
    · simp [List.mem_append, hS, hE, List.mem_filter, missingOf]
    · have hmem : c ∈ (cols.eraseDups.filter fun c => !S.contains c).filter
          (fun c' => !isOtherErr (addRes c')) := by
        simp [List.mem_filter, hc, hS, hE]
      simp [List.mem_append, hS, hE, hmem, hc]

/-- Claim C6 (confirmed). When DESCRIBE succeeds the reconciler raises
nothing to its caller; every column missing from the destination schema
receives exactly one ALTER attempt even when earlier attempts failed
(non-fatal continuation); a column whose add reported already-exists
counts as present (success); and a second invocation with the same batch
issues DDL only for the columns whose add previously failed with a real
error - in particular no DDL at all, hence no duplicate-column error,
when the first pass succeeded. -/
theorem C6_reconciler_idempotent (S cols : List String)
    (addRes : String → AddRes) :
    add_missing_columns (.ok S) addRes cols =
      .ok (addColumnsLoop addRes (missingOf S cols) S) ∧
    (addColumnsLoop addRes (missingOf S cols) S).ddl = missingOf S cols ∧
    (addColumnsLoop addRes (missingOf S cols) S).schema =
      S ++ (missingOf S cols).filter (fun c => !isOtherErr (addRes c)) ∧
    (addColumnsLoop addRes
        (missingOf (addColumnsLoop addRes (missingOf S cols) S).schema cols)
        (addColumnsLoop addRes (missingOf S cols) S).schema).ddl =
      (addColumnsLoop addRes (missingOf S cols) S).failed := by
  refine ⟨rfl, ?_, ?_, ?_⟩
  · rw [addColumnsLoop_spec]
  · rw [addColumnsLoop_spec]
  · conv_lhs => rw [addColumnsLoop_spec]
    exact missingOf_after S cols addRes

/-! ## Lemmas on the row transformers -/

theorem sanitizeChar_clean (c : Char) :
    (sanitizeChar c).any isBadChar = false := by
  simp only [sanitizeChar]
  split_ifs with h1 h2 h3 <;> simp [isBadChar, *]

theorem cleanName_sanitizeName (s : String) :
    cleanName (sanitizeName s) = true := by
  simp only [cleanName, Bool.not_eq_true']
  show (s.data.flatMap sanitizeChar).any isBadChar = false
  induction s.data with
  | nil => rfl
  | cons c t ih =>
    simp [List.flatMap_cons, List.any_append, sanitizeChar_clean c, ih]

theorem flatMap_sanitize_of_clean :
    ∀ l : List Char, l.any isBadChar = false → l.flatMap sanitizeChar = l := by
  intro l hl
  induction l with
  | nil => rfl
  | cons c t ih =>
    simp only [List.any_cons, Bool.or_eq_false_iff] at hl
    have hb := hl.1
    simp only [isBadChar, Bool.or_eq_false_iff, decide_eq_false_iff_not] at hb
    have hc : sanitizeChar c = [c] := by
      simp [sanitizeChar, hb.1.1, hb.1.2, hb.2]
    simp [List.flatMap_cons, hc, ih hl.2]

theorem sanitizeName_of_clean (s : String) (h : cleanName s = true) :
    sanitizeName s = s := by
  simp only [cleanName, Bool.not_eq_true'] at h
  show String.mk (s.data.flatMap sanitizeChar) = s
  rw [flatMap_sanitize_of_clean s.data h]

theorem cleanName_append (a b : String) :
    cleanName (a ++ b) = (cleanName a && cleanName b) := by
  simp [cleanName, String.data_append, List.any_append]

theorem cleanName_renameBase (c : String) :
    cleanName (renameBase c) = true := by
  unfold renameBase
  split_ifs <;> first | decide | exact cleanName_sanitizeName c

theorem renameBase_of_clean (c : String) (h : cleanName c = true) :
    renameBase c = c := by
  unfold renameBase
  split_ifs with h1 h2 h3
  · exact absurd (h1 ▸ h) (by decide)
  · exact absurd (h2 ▸ h) (by decide)
  · exact absurd (h3 ▸ h) (by decide)
  · exact sanitizeName_of_clean c h

theorem freshSuffix_exists (used : List String) (base : String) :
    ∃ cand ∈ (List.range (used.length + 1)).map
      (fun k => base ++ "_" ++ natStr (k + 1)),
      (!used.contains cand) = true := by
  by_contra hno
  push_neg at hno
  have hsub : ((List.range (used.length + 1)).map
      (fun k => base ++ "_" ++ natStr (k + 1))) ⊆ used := by
    intro cand hc
    cases h3 : used.contains cand with
    | true => exact List.mem_of_elem_eq_true h3
    | false =>
      exact absurd (show (!used.contains cand) = true by rw [h3]; rfl)
        (hno cand hc)
  have hnd : ((List.range (used.length + 1)).map
      (fun k => base ++ "_" ++ natStr (k + 1))).Nodup := by
    refine List.Nodup.map ?_ (List.nodup_range (used.length + 1))
    intro k1 k2 hk
    have h2 : (base ++ "_").data ++ natToDigits (k1 + 1) =
        (base ++ "_").data ++ natToDigits (k2 + 1) := by
      have h2a := congrArg String.data hk
      rw [String.data_append, String.data_append] at h2a
      exact h2a
    have h5 : natToDigits (k1 + 1) = natToDigits (k2 + 1) :=
      List.append_cancel_left h2
    have h6 : k1 + 1 = k2 + 1 := by
      calc k1 + 1 = digitsToNat (natToDigits (k1 + 1)) :=
            (digitsToNat_natToDigits _).symm
        _ = digitsToNat (natToDigits (k2 + 1)) := by rw [h5]
        _ = k2 + 1 := digitsToNat_natToDigits _
    omega
  have hlen := List.Subperm.length_le (List.subperm_of_subset hnd hsub)
  simp only [List.length_map, List.length_range] at hlen
  omega

theorem freshSuffix_not_mem (used : List String) (base : String) :
    freshSuffix used base ∉ used := by
  obtain ⟨cand, hcand, hp⟩ := freshSuffix_exists used base
  have hsome : (((List.range (used.length + 1)).map
      (fun k => base ++ "_" ++ natStr (k + 1))).find?
      (fun cand => !used.contains cand)).isSome :=
    List.find?_isSome.mpr ⟨cand, hcand, hp⟩
  obtain ⟨d, hd⟩ := Option.isSome_iff_exists.mp hsome
  have hpd := List.find?_some hd
  simp only [freshSuffix, hd, Option.getD_some]
  simp only [Bool.not_eq_true'] at hpd
  intro hm
  have h5 : used.contains d = true := List.elem_eq_true_of_mem hm
  rw [h5] at hpd
  cases hpd

theorem freshSuffix_shape (used : List String) (base : String) :
    freshSuffix used base = base ∨
    ∃ k, freshSuffix used base = base ++ "_" ++ natStr (k + 1) := by
  unfold freshSuffix
  cases hf : ((List.range (used.length + 1)).map
      (fun k => base ++ "_" ++ natStr (k + 1))).find?
      (fun cand => !used.contains cand) with
  | none => left; rfl
  | some d =>
    right
    obtain ⟨k, -, hk⟩ := List.mem_map.mp (List.mem_of_find?_eq_some hf)
    exact ⟨k, by simp [hk.symm]⟩

theorem cleanName_freshSuffix (used : List String) (base : String)
    (h : cleanName base = true) : cleanName (freshSuffix used base) = true := by
  rcases freshSuffix_shape used base with he | ⟨k, he⟩ <;> rw [he]
  · exact h
  · rw [cleanName_append, cleanName_append]
    simp [h, cleanName_natStr, (by decide : cleanName "_" = true)]

theorem renameOne_not_mem (used : List String) (c : String) :
    renameOne used c ∉ used := by
  unfold renameOne
  split
  · exact freshSuffix_not_mem used _
  · next hcon =>
    intro hm
    exact hcon (List.elem_eq_true_of_mem hm)

theorem cleanName_renameOne (used : List String) (c : String) :
    cleanName (renameOne used c) = true := by
  unfold renameOne
  split
  · exact cleanName_freshSuffix used _ (cleanName_renameBase c)
  · exact cleanName_renameBase c

theorem renameList_length :
    ∀ (cs used : List String), (renameList used cs).length = cs.length := by
  intro cs
  induction cs with
  | nil => intro used; rfl
  | cons c cs ih => intro used; simp [renameList, ih]

theorem renameList_spec :
    ∀ (cs used : List String),
    (renameList used cs).Nodup ∧
    ∀ x ∈ renameList used cs, x ∉ used ∧ cleanName x = true := by
  intro cs
  induction cs with
  | nil => intro used; simp [renameList]
  | cons c cs ih =>
    intro used
    obtain ⟨ihnd, ihmem⟩ := ih (used ++ [renameOne used c])
    refine ⟨?_, ?_⟩
    · refine List.nodup_cons.mpr ⟨?_, ihnd⟩
      intro hmem
      have h1 := (ihmem _ hmem).1
      exact h1 (by simp)
    · intro x hx
      rcases List.mem_cons.mp hx with rfl | hx'
      · exact ⟨renameOne_not_mem used c, cleanName_renameOne used c⟩
      · obtain ⟨h1, h2⟩ := ihmem x hx'
        simp only [List.mem_append, List.mem_singleton, not_or] at h1
        exact ⟨h1.1, h2⟩

theorem renameList_fixed :
    ∀ (cs used : List String), cs.Nodup →
    (∀ c ∈ cs, cleanName c = true ∧ c ∉ used) → renameList used cs = cs := by
  intro cs
  induction cs with
  | nil => intro used _ _; rfl
  | cons c cs ih =>
    intro used hnd hmem
    obtain ⟨hclean, hnotmem⟩ := hmem c (by simp)
    have hone : renameOne used c = c := by
      unfold renameOne
      rw [renameBase_of_clean c hclean, if_neg]
      intro hcon
      exact hnotmem (List.mem_of_elem_eq_true hcon)
    simp only [renameList, hone, List.cons.injEq, true_and]
    apply ih (used ++ [c]) (List.nodup_cons.mp hnd).2
    intro c' hc'
    obtain ⟨h1, h2⟩ := hmem c' (by simp [hc'])
    refine ⟨h1, ?_⟩
    simp only [List.mem_append, List.mem_singleton, not_or]
    exact ⟨h2, fun he => (List.nodup_cons.mp hnd).1 (he ▸ hc')⟩

theorem amDtyAfter_idem (d : Dty) :
    amDtyAfter (amDtyAfter d) = amDtyAfter d := by
  cases d <;> rfl

theorem amCell_idem (d : Dty) (v : Val) :
    amCellTransform (amDtyAfter d) (amCellTransform d v) =
      amCellTransform d v := by
  cases d <;> cases v <;> rfl

theorem zipWith_amCell_idem :
    ∀ (ds : List Dty) (r : List Val),
    List.zipWith amCellTransform (ds.map amDtyAfter)
      (List.zipWith amCellTransform ds r) =
      List.zipWith amCellTransform ds r := by
  intro ds
  induction ds with
  | nil => intro r; rfl
  | cons d ds ih =>
    intro r
    cases r with
    | nil => rfl
    | cons v r => simp [amCell_idem, ih]

/-- Claim C7, amended. The transforms are pure functions of the batch
(hence deterministic), and the search-index transform of
AppleMangoOpenSearchETL is idempotent on every batch: renaming leaves
already-safe names untouched and the per-dtype value normalisation fixes
its own output.  (The relational transform of GuavaMariaDBETL is NOT
idempotent; see the counterexample.) -/
theorem C7_amended (df : DF) :
    AppleMangoOpenSearchETL.transform (AppleMangoOpenSearchETL.transform df) =
      AppleMangoOpenSearchETL.transform df := by
  by_cases h : df.rows = []
  · simp [AppleMangoOpenSearchETL.transform, h]
  · have hinner : AppleMangoOpenSearchETL.transform df =
        ⟨(renameList [] (df.cols.map Prod.fst)).zip
           (df.cols.map (fun p => amDtyAfter p.2)),
         df.rows.map (fun r =>
           List.zipWith amCellTransform (df.cols.map Prod.snd) r)⟩ := by
      rw [AppleMangoOpenSearchETL.transform, if_neg h]
    rw [hinner]
    have hrows : (df.rows.map (fun r =>
        List.zipWith amCellTransform (df.cols.map Prod.snd) r)) ≠ [] := by
      simpa using h
    rw [AppleMangoOpenSearchETL.transform]
    rw [if_neg hrows]
    have hlen : (renameList [] (df.cols.map Prod.fst)).length =
        (df.cols.map (fun p => amDtyAfter p.2)).length := by
      rw [renameList_length]
      simp
    have hfst : (((renameList [] (df.cols.map Prod.fst)).zip
        (df.cols.map (fun p => amDtyAfter p.2))).map Prod.fst) =
        renameList [] (df.cols.map Prod.fst) :=
      List.map_fst_zip _ _ (le_of_eq hlen)
    have hsnd : (((renameList [] (df.cols.map Prod.fst)).zip
        (df.cols.map (fun p => amDtyAfter p.2))).map Prod.snd) =
        df.cols.map (fun p => amDtyAfter p.2) :=
      List.map_snd_zip _ _ (le_of_eq hlen.symm)
    have hfix : renameList [] (renameList [] (df.cols.map Prod.fst)) =
        renameList [] (df.cols.map Prod.fst) := by
      obtain ⟨hnd, hmem⟩ := renameList_spec (df.cols.map Prod.fst) []
      exact renameList_fixed _ [] hnd (fun c hc => ⟨(hmem c hc).2, by simp⟩)
    have hdty : (((renameList [] (df.cols.map Prod.fst)).zip
        (df.cols.map (fun p => amDtyAfter p.2))).map
          (fun p => amDtyAfter p.2)) =
        df.cols.map (fun p => amDtyAfter p.2) := by
      have h1 : (((renameList [] (df.cols.map Prod.fst)).zip
          (df.cols.map (fun p => amDtyAfter p.2))).map
            (fun p => amDtyAfter p.2)) =
          (((renameList [] (df.cols.map Prod.fst)).zip
            (df.cols.map (fun p => amDtyAfter p.2))).map Prod.snd).map
              amDtyAfter := by
        rw [List.map_map]
        rfl
      rw [h1, hsnd, List.map_map]
      apply List.map_congr_left
      intro p _
      exact amDtyAfter_idem p.2
    have hsnd2 : (((renameList [] (df.cols.map Prod.fst)).zip
        (df.cols.map (fun p => amDtyAfter p.2))).map Prod.snd) =
        (df.cols.map Prod.snd).map amDtyAfter := by
      rw [hsnd, List.map_map]
      rfl
    congr 1
    · rw [hfst, hfix, hdty]
    · rw [hsnd2, List.map_map]
      apply List.map_congr_left
      intro r _
      exact zipWith_amCell_idem (df.cols.map Prod.snd) r

/-- Claim C7, counterexample. The relational-path transform of
GuavaMariaDBETL is not idempotent: a datetime column holding a null is
rendered to None (kept under dtype object) by the first application, and
the second application then fills that None with the empty string,
changing the already-transformed batch. -/
theorem C7_counterexample :
    ¬ (GuavaMariaDBETL.transform "orders"
        (GuavaMariaDBETL.transform "orders" ⟨[("D", .dtDatetime)], [[.vNull]]⟩) =
       GuavaMariaDBETL.transform "orders" ⟨[("D", .dtDatetime)], [[.vNull]]⟩) := by
  decide

/-! ## Lemmas on the adaptive batch loop -/

theorem afterExtract_inv (cfg : PBCfg) (s : PBSt) (current rows : Nat)
    (h1 : s.totalProcessed ≤ s.offset)
    (h2 : s.offset + current ≤ cfg.totalRows)
    (h3 : rows ≤ current) :
    outInv cfg (afterExtract cfg s current rows) := by
  simp only [afterExtract]
  split_ifs with hr ht hl <;> simp only [outInv, pbInv] <;> omega

theorem pbIter_inv (cfg : PBCfg) (s : PBSt)
    (h1 : s.totalProcessed ≤ s.offset) (h2 : s.offset ≤ cfg.totalRows)
    (hofs : s.offset < cfg.totalRows) :
    outInv cfg (pbIter cfg s) := by
  have hcur : min s.batchSize (cfg.totalRows - s.offset) ≤
      cfg.totalRows - s.offset := Nat.min_le_right _ _
  rcases horacle : cfg.oracle s.trace.length with n | _ | _
  · simp only [pbIter, horacle]
    exact afterExtract_inv cfg _ _ _ (by simpa using h1)
      (by simp only []; omega) (Nat.min_le_right _ _)
  · simp only [pbIter, horacle]
    split_ifs with h100
    · rcases horacle2 : cfg.oracle (s.trace ++
          [(s.offset, min s.batchSize (cfg.totalRows - s.offset))]).length
        with m | _ | _
      · simp only [horacle2]
        rcases horacle3 : cfg.oracle (s.trace ++
            [(s.offset, min s.batchSize (cfg.totalRows - s.offset))] ++
            [(s.offset, min s.batchSize (cfg.totalRows - s.offset) / 2)]).length
          with m2 | _ | _
        · simp only [horacle3]
          exact afterExtract_inv cfg _ _ _ (by simpa using h1)
            (by simp only []; omega) (Nat.min_le_right _ _)
        · simp only [horacle3, outInv, pbInv]
          omega
        · simp only [horacle3, outInv, pbInv]
          omega
      · simp only [horacle2, outInv, pbInv]
        omega
      · simp only [horacle2, outInv, pbInv]
        omega
    · simp only [outInv, pbInv]
      omega
  · simp only [pbIter, horacle]
    split_ifs with h3
    · simp only [outInv, pbInv]
      omega
    · rcases horacle2 : cfg.oracle (s.trace ++
          [(s.offset, min s.batchSize (cfg.totalRows - s.offset))]).length
        with m | _ | _
      · simp only [horacle2]
        exact afterExtract_inv cfg _ _ _ (by simpa using h1)
          (by simp only []; omega) (Nat.min_le_right _ _)
      · simp only [horacle2, outInv, pbInv]
        omega
      · simp only [horacle2, outInv, pbInv]
        omega

theorem pbRun_inv (cfg : PBCfg) :
    ∀ (fuel : Nat) (s s' : PBSt),
    s.totalProcessed ≤ s.offset → s.offset ≤ cfg.totalRows →
    pbRun cfg fuel s = some s' →
    s'.totalProcessed ≤ cfg.totalRows := by
  intro fuel
  induction fuel with
  | zero => intro s s' _ _ hrun; cases hrun
  | succ f ih =>
    intro s s' h1 h2 hrun
    rw [pbRun] at hrun
    split_ifs at hrun with hofs
    · rcases hiter : pbIter cfg s with s2 | s2 <;> rw [hiter] at hrun
      · have hout := pbIter_inv cfg s h1 h2 hofs
        rw [hiter] at hout
        exact ih s2 s' hout.1 hout.2 hrun
      · have hout := pbIter_inv cfg s h1 h2 hofs
        rw [hiter] at hout
        obtain ⟨ha, hb⟩ : pbInv cfg s2 := hout
        cases hrun
        omega
    · cases hrun
      omega

theorem afterExtract_progress (cfg : PBCfg) (s : PBSt) (current rows : Nat)
    (hc : 1 ≤ current) (hbs : 1 ≤ s.batchSize) :
    match afterExtract cfg s current rows with
    | .stop _ => True
    | .next s' => s.offset + 1 ≤ s'.offset ∧ 1 ≤ s'.batchSize := by
  simp only [afterExtract]
  split_ifs with hr ht hl <;> simp <;> omega

theorem pbIter_progress (cfg : PBCfg) (s : PBSt)
    (hbs : 1 ≤ s.batchSize) (hofs : s.offset < cfg.totalRows) :
    match pbIter cfg s with
    | .stop _ => True
    | .next s' => s.offset + 1 ≤ s'.offset ∧ 1 ≤ s'.batchSize := by
  have hcur : 1 ≤ min s.batchSize (cfg.totalRows - s.offset) := by
    omega
  rcases horacle : cfg.oracle s.trace.length with n | _ | _
  · simp only [pbIter, horacle]
    exact afterExtract_progress cfg _ _ _ hcur (by simpa using hbs)
  · simp only [pbIter, horacle]
    split_ifs with h100
    · rcases horacle2 : cfg.oracle (s.trace ++
          [(s.offset, min s.batchSize (cfg.totalRows - s.offset))]).length
        with m | _ | _
      · simp only [horacle2]
        rcases horacle3 : cfg.oracle (s.trace ++
            [(s.offset, min s.batchSize (cfg.totalRows - s.offset))] ++
            [(s.offset, min s.batchSize (cfg.totalRows - s.offset) / 2)]).length
          with m2 | _ | _
        · simp only [horacle3]
          exact afterExtract_progress cfg _ _ _ (by omega) (by simp; omega)
        · simp only [horacle3]
          simp
          omega
        · simp only [horacle3]
          simp
          omega
      · simp only [horacle2]
        simp
        omega
      · simp only [horacle2]
        simp
        omega
    · simp
      omega
  · simp only [pbIter, horacle]
    split_ifs with h3
    · simp
    · rcases horacle2 : cfg.oracle (s.trace ++
          [(s.offset, min s.batchSize (cfg.totalRows - s.offset))]).length
        with m | _ | _
      · simp only [horacle2]
        exact afterExtract_progress cfg _ _ _ hcur (by simpa using hbs)
      · simp only [horacle2]
        simp
        omega
      · simp only [horacle2]
        simp
        omega

theorem pbRun_total (cfg : PBCfg) :
    ∀ (fuel : Nat) (s : PBSt), 1 ≤ s.batchSize →
    cfg.totalRows - s.offset < fuel →
    (pbRun cfg fuel s).isSome = true := by
  intro fuel
  induction fuel with
  | zero => intro s _ h; omega
  | succ f ih =>
    intro s hbs hfuel
    rw [pbRun]
    split_ifs with hofs
    · have hprog := pbIter_progress cfg s hbs hofs
      rcases hiter : pbIter cfg s with s2 | s2
      · rw [hiter] at hprog
        obtain ⟨hA, hB⟩ : s.offset + 1 ≤ s2.offset ∧ 1 ≤ s2.batchSize := hprog
        show (pbRun cfg f s2).isSome = true
        exact ih s2 hB (by omega)
      · rfl
    · rfl

theorem scrollLoop_cap (maxRows : Nat) (pageFn : Nat → List Nat) :
    ∀ (fuel : Nat) (results hits : List Nat) (idx : Nat) (res : List Nat),
    results.length ≤ maxRows →
    AppleMangoOpenSearchETL.scrollLoop maxRows pageFn fuel results hits idx =
      some res →
    res.length ≤ maxRows := by
  intro fuel
  induction fuel with
  | zero => intro results hits idx res _ hrun; cases hrun
  | succ f ih =>
    intro results hits idx res hlen hrun
    simp only [AppleMangoOpenSearchETL.scrollLoop] at hrun
    split_ifs at hrun with hcond htrim hge hge2
    · cases hrun
      simp only [List.length_append, List.length_take]
      omega
    · exact ih _ _ _ res (by simp [List.length_append, List.length_take]; omega) hrun
    · cases hrun
      simp only [List.length_append]
      omega
    · exact ih _ _ _ res (by omega) hrun
    · cases hrun
      exact hlen

/-- Claim C1, counterexample. On the cursor/scroll path the FIRST page is
appended without trimming, so with a per-object cap of 500 and a source
whose first scroll page holds 1000 documents the extractor returns 1000
rows, exceeding the cap. -/
theorem C1_counterexample :
    (AppleMangoOpenSearchETL.extract_from_index 500
        (fun i => if i = 0 then List.range 1000 else []) 10).map List.length =
      some 1000 ∧ ¬ ((1000 : Nat) ≤ 500) := by
  exact ⟨by decide, by decide⟩

/-- Claim C1, amended. The offset-paged (ClickHouse) path never hands on
more rows than the clamped total, hence never more than max_rows, for any
oracle behaviour; the scroll path respects the cap whenever the cap is at
least the fixed first-page size of 1000 (pages after the first are
trimmed to the remaining budget). -/
theorem C1_amended (count maxRows bs fuel : Nat) (oracle : Nat → QRes)
    (tOk lOk : Nat → Bool) (s' : PBSt)
    (hrun : pbRun ⟨runTotalRows count maxRows, oracle, tOk, lOk⟩ fuel
      (pbInit bs) = some s')
    (pageFn : Nat → List Nat) (maxR2 fuel2 : Nat) (res : List Nat)
    (hcap : 1000 ≤ maxR2)
    (hscroll : AppleMangoOpenSearchETL.extract_from_index maxR2 pageFn fuel2 =
      some res) :
    s'.totalProcessed ≤ maxRows ∧ res.length ≤ maxR2 := by
  constructor
  · have h := pbRun_inv ⟨runTotalRows count maxRows, oracle, tOk, lOk⟩ fuel
      (pbInit bs) s' (by simp [pbInit]) (by simp [pbInit]) hrun
    calc s'.totalProcessed ≤ runTotalRows count maxRows := h
      _ ≤ maxRows := Nat.min_le_right count maxRows
  · have hfirst : ((pageFn 0).take 1000).length ≤ maxR2 := by
      simp only [List.length_take]
      omega
    exact scrollLoop_cap maxR2 pageFn fuel2 _ _ 1 res hfirst hscroll

/-- Witness for C1_amended: a seven-row source clamped to three rows on
the offset path, and a three-document scroll under a cap of 1000. -/
theorem C1_witness :
    (⟨3, 1, 3, 0, 5, 1, 1, [(0, 3)]⟩ : PBSt).totalProcessed ≤ 3 ∧
    ([1, 2, 3] : List Nat).length ≤ 1000 :=
  C1_amended 7 3 5 10 (fun _ => .ok 5) (fun _ => true) (fun _ => true)
    ⟨3, 1, 3, 0, 5, 1, 1, [(0, 3)]⟩ (by decide)
    (fun i => if i = 0 then [1, 2, 3] else []) 1000 5 [1, 2, 3]
    (by decide) (by decide)

theorem pbRun_stuck :
    ∀ (fuel : Nat) (s : PBSt), s.offset = 0 → s.batchSize = 0 →
    pbRun ⟨1, fun _ => .memErr, fun _ => true, fun _ => true⟩ fuel s =
      none := by
  intro fuel
  induction fuel with
  | zero => intro s _ _; rfl
  | succ f ih =>
    intro s h0 hbs
    rw [pbRun]
    rw [if_pos (by rw [h0]; norm_num)]
    have hiter : pbIter ⟨1, fun _ => .memErr, fun _ => true, fun _ => true⟩ s =
        .next ⟨0, s.batchNum + 1, s.totalProcessed, s.consecFailures + 1, 0,
               s.tCalls, s.lCalls, s.trace ++ [(0, 0)]⟩ := by
      simp [pbIter, h0, hbs]
    rw [hiter]
    exact ih _ rfl rfl

/-- Claim C9, counterexample. With a configured page size of 0 and a
source that answers every page query with the memory-limit error, the
batch loop never advances its offset and never terminates: no amount of
fuel makes the loop finish. -/
theorem C9_counterexample :
    ¬ ∃ (fuel : Nat) (s' : PBSt),
      pbRun ⟨1, fun _ => .memErr, fun _ => true, fun _ => true⟩ fuel
        (pbInit 0) = some s' := by
  rintro ⟨fuel, s', hrun⟩
  rw [pbRun_stuck fuel (pbInit 0) rfl rfl] at hrun
  cases hrun

/-- Claim C9, amended. For every positive page size the batch loop
terminates on every input - whatever the oracle answers (including a
memory-limit error on every page), total_rows + 1 iterations of fuel
always suffice. -/
theorem C9_amended (cfg : PBCfg) (bs : Nat) (hbs : 1 ≤ bs) :
    (pbRun cfg (cfg.totalRows + 1) (pbInit bs)).isSome = true :=
  pbRun_total cfg (cfg.totalRows + 1) (pbInit bs) hbs (by simp [pbInit])

/-- Witness for C9_amended: page size 1 against a two-row source whose
every page query fails with the memory-limit error. -/
theorem C9_witness :
    (pbRun ⟨2, fun _ => .memErr, fun _ => true, fun _ => true⟩ (2 + 1)
      (pbInit 1)).isSome = true :=
  C9_amended ⟨2, fun _ => .memErr, fun _ => true, fun _ => true⟩ 1 (by decide)

/-- Claim C2, counterexample. When every page fails with the
memory-limit error at the floor page size of 100, the loop does NOT stop
after 3 consecutive failures: over a 1000-row range it issues 10 page
queries, lets the consecutive-failure counter climb to 10, skips the
whole range forward and returns 0 rows only when the range is exhausted
(the skip paths jump over the stop check). -/
theorem C2_counterexample :
    (pbRun ⟨1000, fun _ => .memErr, fun _ => true, fun _ => true⟩ 11
        (pbInit 100)).map
      (fun s => (s.trace.length, s.consecFailures, s.totalProcessed,
                 s.offset)) = some (10, 10, 0, 1000) ∧
    ¬ ((10 : Nat) ≤ 3) := by
  exact ⟨by decide, by decide⟩

/-- Claim C2, amended. The 3-consecutive-failure stop fires only when the
reached check is not skipped: with every page query failing with a
NON-memory error, the third failed iteration stops the loop and returns
what was accumulated, after exactly five source queries (two per retried
iteration, one for the stopping one), with the offset still far from the
end of the range. -/
theorem C2_amended (T bs : Nat) (tOk lOk : Nat → Bool)
    (hbs : 1 ≤ bs) (hT : 2 * bs < T) :
    pbRun ⟨T, fun _ => .otherErr, tOk, lOk⟩ 3 (pbInit bs) =
      some ⟨2 * bs, 3, 0, 3, bs, 0, 0,
            [(0, bs), (0, bs), (bs, bs), (bs, bs),
             (2 * bs, min bs (T - 2 * bs))]⟩ := by
  have hmin0 : min bs T = bs := by omega
  have hmin1 : min bs (T - bs) = bs := by omega
  have e1 : pbIter ⟨T, fun _ => .otherErr, tOk, lOk⟩ (pbInit bs) =
      .next ⟨bs, 1, 0, 1, bs, 0, 0, [(0, bs), (0, bs)]⟩ := by
    simp [pbIter, pbInit, hmin0]
  have e2 : pbIter ⟨T, fun _ => .otherErr, tOk, lOk⟩
      ⟨bs, 1, 0, 1, bs, 0, 0, [(0, bs), (0, bs)]⟩ =
      .next ⟨2 * bs, 2, 0, 2, bs, 0, 0,
             [(0, bs), (0, bs), (bs, bs), (bs, bs)]⟩ := by
    simp [pbIter, hmin1, Nat.two_mul]
  have e3 : pbIter ⟨T, fun _ => .otherErr, tOk, lOk⟩
      ⟨2 * bs, 2, 0, 2, bs, 0, 0, [(0, bs), (0, bs), (bs, bs), (bs, bs)]⟩ =
      .stop ⟨2 * bs, 3, 0, 3, bs, 0, 0,
             [(0, bs), (0, bs), (bs, bs), (bs, bs),
              (2 * bs, min bs (T - 2 * bs))]⟩ := by
    simp [pbIter]
  have estep : ∀ (f : Nat) (s : PBSt),
      pbRun ⟨T, fun _ => .otherErr, tOk, lOk⟩ (f + 1) s =
        if s.offset < T then
          match pbIter ⟨T, fun _ => .otherErr, tOk, lOk⟩ s with
          | .next s' => pbRun ⟨T, fun _ => .otherErr, tOk, lOk⟩ f s'
          | .stop s' => some s'
        else some s := fun f s => rfl
  rw [show (3 : Nat) = 2 + 1 from rfl, estep 2 (pbInit bs),
      if_pos (show (pbInit bs).offset < T by simp [pbInit]; omega), e1]
  show pbRun ⟨T, fun _ => .otherErr, tOk, lOk⟩ 2
      ⟨bs, 1, 0, 1, bs, 0, 0, [(0, bs), (0, bs)]⟩ = _
  rw [show (2 : Nat) = 1 + 1 from rfl, estep 1 _,
      if_pos (show bs < T by omega), e2]
  show pbRun ⟨T, fun _ => .otherErr, tOk, lOk⟩ 1
      ⟨2 * bs, 2, 0, 2, bs, 0, 0, [(0, bs), (0, bs), (bs, bs), (bs, bs)]⟩ = _
  rw [show (1 : Nat) = 0 + 1 from rfl, estep 0 _,
      if_pos (show 2 * bs < T by omega), e3]

/-- Witness for C2_amended at page size 500 against a 10000-row range. -/
theorem C2_witness :
    pbRun ⟨10000, fun _ => .otherErr, fun _ => true, fun _ => true⟩ 3
        (pbInit 500) =
      some ⟨2 * 500, 3, 0, 3, 500, 0, 0,
            [(0, 500), (0, 500), (500, 500), (500, 500),
             (2 * 500, min 500 (10000 - 2 * 500))]⟩ :=
  C2_amended 10000 500 (fun _ => true) (fun _ => true) (by decide) (by decide)

/-- Claim C3, counterexample. Page size 500, memory-limit error at offset
0, and the halved retry (LIMIT 250) failing as well: the loop skips
forward by 250 but the NEXT batch is requested with LIMIT 500 again -
self.batch_size is updated only when the halved query succeeds, so the
halved size does not become the page size for subsequent batches. -/
theorem C3_counterexample :
    (pbRun ⟨10000, fun k => if k ≤ 1 then QRes.memErr else QRes.ok 0,
        fun _ => true, fun _ => true⟩ 5 (pbInit 500)).map
      (fun s => (s.trace, s.batchSize)) =
      some ([(0, 500), (0, 250), (250, 500)], 500) ∧
    (([(0, 500), (0, 250), (250, 500)] : List (Nat × Nat)).getD 2 (0, 0)).2 ≠
      250 := by
  exact ⟨by decide, by decide⟩

/-- Claim C3, amended. On a memory-limit error with the page size above
the floor of 100 the extractor halves the size and re-queries the same
offset; if the halved query fails (with any error) it advances the offset
by the halved size and continues with the page size UNCHANGED; if the
halved query succeeds, the halved size is persisted for subsequent
batches and the halved query is issued once more at the same offset (the
generic retry), whose result is the one consumed. -/
theorem C3_amended (T bs : Nat) (o o2 : Nat → QRes) (tOk lOk : Nat → Bool)
    (hbs : 100 < bs) (hT : bs ≤ T)
    (h0 : o 0 = .memErr) (h1 : o 1 = .memErr ∨ o 1 = .otherErr)
    (g0 : o2 0 = .memErr) (g1 : ∀ k, 1 ≤ k → o2 k = .ok bs)
    (ht0 : tOk 0 = true) (hl0 : lOk 0 = true) :
    pbIter ⟨T, o, tOk, lOk⟩ (pbInit bs) =
      .next ⟨bs / 2, 1, 0, 1, bs, 0, 0, [(0, bs), (0, bs / 2)]⟩ ∧
    pbIter ⟨T, o2, tOk, lOk⟩ (pbInit bs) =
      .next ⟨bs / 2, 1, bs / 2, 0, bs / 2, 1, 1,
             [(0, bs), (0, bs / 2), (0, bs / 2)]⟩ := by
  have hmin0 : min bs T = bs := by omega
  constructor
  · rcases h1 with h1 | h1 <;> simp [pbIter, pbInit, hmin0, h0, h1, hbs]
  · have g1' : o2 1 = .ok bs := g1 1 (by omega)
    have g2' : o2 2 = .ok bs := g1 2 (by omega)
    have hmin2 : min bs (bs / 2) = bs / 2 := by omega
    have hhalf : ¬ (bs / 2 = 0) := by omega
    simp [pbIter, pbInit, afterExtract, hmin0, g0, g1', g2', hbs, hmin2,
          hhalf, ht0, hl0]

/-- Witness for C3_amended at page size 500: the halved-failure scenario
with two memory errors, and the halved-success scenario where queries
after the first return 500-row pages. -/
theorem C3_witness :
    pbIter ⟨10000, fun _ => QRes.memErr, fun _ => true, fun _ => true⟩
        (pbInit 500) =
      .next ⟨500 / 2, 1, 0, 1, 500, 0, 0, [(0, 500), (0, 500 / 2)]⟩ ∧
    pbIter ⟨10000, fun k => if k = 0 then QRes.memErr else QRes.ok 500,
        fun _ => true, fun _ => true⟩ (pbInit 500) =
      .next ⟨500 / 2, 1, 500 / 2, 0, 500 / 2, 1, 1,
             [(0, 500), (0, 500 / 2), (0, 500 / 2)]⟩ :=
  C3_amended 10000 500 (fun _ => QRes.memErr)
    (fun k => if k = 0 then QRes.memErr else QRes.ok 500)
    (fun _ => true) (fun _ => true) (by decide) (by decide) rfl
    (Or.inl rfl) rfl
    (fun k hk => by
      cases k with
      | zero => omega
      | succ n => rfl)
    rfl rfl
